import Mathlib

/-
Verification of the spectral-analyzer core
(`src/core/spectral_analyzer.py`, `src/core/prb_reading.py`).

The Python code drives a remote AMOS shell, captures a text log, and
reconstructs per-PRB interference readings with four regex scans:

  cell_sc_pattern : `EUtranCellFDD={cell} sectorCarrierRef ... [..] ...`
                    followed by `>>> sectorCarrierRef = ...,SectorCarrier={sc}`
                    continuation lines,
  prb_pattern     : `SectorCarrier=S,PmUlInterferenceReport=R
                     pmRadioRecInterferencePwrBrPrbN P`,
  branch_pattern  : `SectorCarrier=S,PmUlInterferenceReport=R rfBranchRxRef
                     AntennaUnitGroup=G,RfBranch=B`,
  port_pattern    : `AntennaUnitGroup=G,RfBranch=B rfPortRef
                     FieldReplaceableUnit=RRU-(R2-)?U,RfPort=L`.

The embedding takes the lists of regex match groups (in text order, exactly
the tuples `finditer`/`search` would yield) as the parser input and models
every step after the matching faithfully: the insertion-ordered Python
dicts become association lists, `defaultdict(list).append` becomes
`assocAppend`, dict assignment becomes `assocSet`, and the loops become
folds in the same iteration order.  Machine integers are `Nat`/`Int`
(the matched groups are decimal digit strings, so no overflow or sign
issues arise), floats are `Real`, and strings are `String`/`List Char`.
-/

namespace SpecAn

/-- First-match association lookup, the semantics of `dict.get` on a Python
dict represented as an insertion-ordered key-value list with unique keys. -/
def assocFind? {α β : Type} [DecidableEq α] : List (α × β) → α → Option β
  | [], _ => none
  | (k, v) :: t, key => if k = key then some v else assocFind? t key

/-- Python dict assignment `d[k] = v` on an insertion-ordered Python dict: replace in place if the
key is present, otherwise append the new binding at the end. -/
def assocSet {α β : Type} [DecidableEq α] : List (α × β) → α → β → List (α × β)
  | [], k, v => [(k, v)]
  | (k', v') :: t, k, v =>
    if k' = k then (k, v) :: t else (k', v') :: assocSet t k v

/-- Python `d[k].append(x)` on a `defaultdict(list)`: extend the list bound
to the key in place, or append a fresh singleton binding at the end. -/
def assocAppend {α β : Type} [DecidableEq α] :
    List (α × List β) → α → β → List (α × List β)
  | [], k, x => [(k, [x])]
  | (k', xs) :: t, k, x =>
    if k' = k then (k', xs ++ [x]) :: t else (k', xs) :: assocAppend t k x

/-- One match of `prb_pattern`: groups (sector, report, prb index, raw power),
in text order.  All groups are produced by `(\w\d+)`/`(\d+)` captures. -/
structure PrbMatch where
  sector : String
  report : String
  prb_num : Nat
  power : Int
  deriving DecidableEq, Repr

/-- One match of `branch_pattern`: groups (sector, report, antenna-unit
group, branch). -/
structure BranchMatch where
  sector : String
  report : String
  au_group : String
  branch : String
  deriving DecidableEq, Repr

/-- One match of `port_pattern`: groups (antenna-unit group, branch, RRU id,
port letter); `hasR2` records whether the substring `R2` occurred in the
whole matched text (the Python code tests `"R2" in rru_text`). -/
structure PortMatch where
  au_group : String
  branch : String
  rru : String
  port : String
  hasR2 : Bool
  deriving DecidableEq, Repr

/-- The regex-scan results of one cleaned text block, exactly the group
tuples the four patterns yield in text order.  `cellCarriers` is the result
of `cell_sc_pattern.search` followed by the `SectorCarrier=` `findall` on
its first group (`none` when the header pattern does not match), and
`stopfileTime` is the timestamp found by `parse_stopfile_time`. -/
structure AmosMatches where
  stopfileTime : Option (List Char)
  cellCarriers : Option (List String)
  prbMatches : List PrbMatch
  branchMatches : List BranchMatch
  portMatches : List PortMatch
  deriving DecidableEq, Repr

/-- The dataclass `PRBReading` (prb_reading.py, lines 5-16).  `cell` is an
`Option` because `parse_prb_data` passes `sector_map['cell']`, which is
`None` when the cell-to-sector-carrier binding was not established. -/
structure PRBReading where
  report : String
  prb_num : Nat
  power : Int
  rru : String
  branch : String
  port : String
  cell : Option String
  sector_carrier : String
  frequency : String
  interference_report : Nat
  deriving DecidableEq, Repr

/-- The analyzer state touched by `parse_prb_data`: the accumulated
readings list and the per-sector stopfile-time dict. -/
structure AnalyzerState where
  readings : List PRBReading
  sector_stopfile_times : List (String × List Char)
  deriving DecidableEq, Repr

/-- Python `int()` on a digit string: `none` on the empty string or any
non-digit character (the regex captures are always pure digit strings). -/
def parseNatCore : List Char → Nat → Option Nat
  | [], acc => some acc
  | c :: cs, acc =>
    if c.isDigit then parseNatCore cs (acc * 10 + (c.toNat - 48)) else none

/-- Python `int()` restricted to unsigned digit strings. -/
def parseNat? : List Char → Option Nat
  | [] => none
  | l => parseNatCore l 0

/-- Step 1 of `parse_prb_data` (lines 493-513): the cell is bound exactly
when the cell header pattern matched and the target sector carrier is the
wildcard or occurs in the extracted bound list; otherwise `sector_map['cell']`
stays `None`. -/
def cell_binding (sc cellId : String) (cellCarriers : Option (List String)) :
    Option String :=
  match cellCarriers with
  | some carriers => if sc = "*" ∨ sc ∈ carriers then some cellId else none
  | none => none

/-- The `Warning: Sector Carrier ... not found` diagnostic of line 510 is
emitted exactly when the header matched but the validation failed. -/
def cell_warning (sc : String) (cellCarriers : Option (List String)) : Bool :=
  match cellCarriers with
  | some carriers => !(decide (sc = "*" ∨ sc ∈ carriers))
  | none => false

/-- Step 2 of `parse_prb_data` (lines 516-520): accumulate
`(prb_index, raw_power)` pairs per report id, filtered to the target
sector carrier (or all of them for the wildcard target). -/
def collect_readings (prbMatches : List PrbMatch) (sc : String) :
    List (String × List (Nat × Int)) :=
  prbMatches.foldl
    (fun acc pm =>
      if sc = "*" ∨ pm.sector = sc then
        assocAppend acc pm.report (pm.prb_num, pm.power)
      else acc)
    []

/-- Step 3 of `parse_prb_data` (lines 523-528): build the report-to-branch
dict and remember the antenna-unit group of the last matching line. -/
def resolve_branches (branchMatches : List BranchMatch) (sc : String) :
    Option String × List (String × String) :=
  branchMatches.foldl
    (fun st bm =>
      if sc = "*" ∨ bm.sector = sc then
        (some bm.au_group, assocSet st.2 bm.report bm.branch)
      else st)
    (none, [])

/-- The RRU naming of line 535: the `R2-` prefix variant is kept when the
matched text contained `R2`. -/
def rru_string (pm : PortMatch) : String :=
  if pm.hasR2 then "RRU-R2-" ++ pm.rru else "RRU-" ++ pm.rru

/-- Step 4 of `parse_prb_data` (lines 531-537): map branches to
`(port, rru)` pairs, accepting only entries whose antenna-unit group equals
the one remembered in step 3 (`none` never equals a matched group, exactly
as Python `None == au_group` is false). -/
def resolve_ports (portMatches : List PortMatch) (au : Option String) :
    List (String × (String × String)) :=
  portMatches.foldl
    (fun bi pm =>
      if some pm.au_group = au then
        assocSet bi pm.branch (pm.port, rru_string pm)
      else bi)
    []

/-- One emitted `PRBReading` (lines 545-555). -/
def mkReading (cellv : Option String) (sc report branch port rru : String)
    (pp : Nat × Int) : PRBReading :=
  { report := "pmRadioRecInterferencePwrBrPrb" ++ Nat.repr pp.1
  , prb_num := pp.1
  , power := pp.2
  , rru := rru
  , branch := branch
  , port := port
  , cell := cellv
  , sector_carrier := sc
  , frequency := ""
  , interference_report := (parseNat? report.data).getD 0 }

/-- The body of the join loop of `parse_prb_data` (lines 540-556) for one
report: look up its branch (`if branch` drops a falsy, i.e. empty, branch)
and then the branch's `(port, rru)` pair; an unresolved report is dropped,
a resolved one emits one reading per collected sample. -/
def join_block (cellv : Option String) (sc report : String)
    (prbs : List (Nat × Int)) (rtb : List (String × String))
    (binfo : List (String × (String × String))) : List PRBReading :=
  match assocFind? rtb report with
  | none => []
  | some branch =>
    if branch = "" then []
    else
      match assocFind? binfo branch with
      | none => []
      | some pr => prbs.map (mkReading cellv sc report branch pr.1 pr.2)

/-- The join step of `parse_prb_data` (lines 540-556): iterate the collected
reports in insertion order and append each report's emitted readings. -/
def join_readings (cellv : Option String) (sc : String) :
    List (String × List (Nat × Int)) → List (String × String) →
    List (String × (String × String)) → List PRBReading
  | [], _, _ => []
  | (report, prbs) :: rest, rtb, binfo =>
    join_block cellv sc report prbs rtb binfo
      ++ join_readings cellv sc rest rtb binfo

/-- The parser `SpectralAnalyzer.parse_prb_data` (lines 453-564): store the stopfile
time, clear the accumulated readings (`self.readings.clear()`, line 460),
bind the cell, run the three scans and the join, and leave exactly the
emitted readings in the state. -/
def parse_prb_data (st : AnalyzerState) (sc cellId : String)
    (m : AmosMatches) : AnalyzerState :=
  let times :=
    match m.stopfileTime with
    | some t => assocSet st.sector_stopfile_times sc t
    | none => st.sector_stopfile_times
  let cellv := cell_binding sc cellId m.cellCarriers
  let rmap := collect_readings m.prbMatches sc
  let rb := resolve_branches m.branchMatches sc
  let binfo := resolve_ports m.portMatches rb.1
  { readings := join_readings cellv sc rmap rb.2 binfo
  , sector_stopfile_times := times }

/-- A report id resolves when the report-to-branch dict binds it to a
non-empty branch that the branch-info dict in turn binds to a
`(port, rru)` pair — the guard of lines 541-542. -/
def resolvable (rtb : List (String × String))
    (binfo : List (String × (String × String))) (report : String) : Bool :=
  match assocFind? rtb report with
  | none => false
  | some b => !(decide (b = "")) && (assocFind? binfo b).isSome

/-- A found binding comes from an entry of the association list. -/
theorem assocFind?_mem {α β : Type} [DecidableEq α] {l : List (α × β)} {k : α}
    {v : β} (h : assocFind? l k = some v) : (k, v) ∈ l := by
  induction l with
  | nil => simp [assocFind?] at h
  | cons p t ih =>
    obtain ⟨k', v'⟩ := p
    by_cases hk : k' = k
    · subst hk
      simp [assocFind?] at h
      simp [h]
    · simp only [assocFind?, if_neg hk] at h
      exact List.mem_cons_of_mem _ (ih h)

/-- Every entry of an updated association list is an old entry or the new
binding. -/
theorem mem_assocSet {α β : Type} [DecidableEq α] {l : List (α × β)} {k : α}
    {v : β} {e : α × β} (h : e ∈ assocSet l k v) : e ∈ l ∨ e = (k, v) := by
  induction l with
  | nil =>
    simp [assocSet] at h
    simp [h]
  | cons p t ih =>
    obtain ⟨k', v'⟩ := p
    by_cases hk : k' = k
    · rw [assocSet, if_pos hk] at h
      rcases List.mem_cons.mp h with h' | h'
      · exact Or.inr h'
      · exact Or.inl (List.mem_cons_of_mem _ h')
    · rw [assocSet, if_neg hk] at h
      rcases List.mem_cons.mp h with h' | h'
      · exact Or.inl (by simp [h'])
      · rcases ih h' with h'' | h''
        · exact Or.inl (List.mem_cons_of_mem _ h'')
        · exact Or.inr h''

/-- Every branch value in the report-to-branch dict built by step 3 is the
branch group of some matched line. -/
theorem resolve_branches_mem (bms : List BranchMatch) (sc : String)
    (e : String × String) (h : e ∈ (resolve_branches bms sc).2) :
    ∃ bm ∈ bms, e.2 = bm.branch := by
  suffices H : ∀ (init : Option String × List (String × String)),
      e ∈ (bms.foldl (fun st bm =>
        if sc = "*" ∨ bm.sector = sc then
          (some bm.au_group, assocSet st.2 bm.report bm.branch)
        else st) init).2 →
      e ∈ init.2 ∨ ∃ bm ∈ bms, e.2 = bm.branch by
    rcases H (none, []) h with h' | h'
    · simp at h'
    · exact h'
  clear h
  induction bms with
  | nil => exact fun init h' => Or.inl h'
  | cons bm rest ih =>
    intro init h'
    rw [List.foldl_cons] at h'
    rcases ih _ h' with h'' | h''
    · by_cases hc : sc = "*" ∨ bm.sector = sc
      · rw [if_pos hc] at h''
        rcases mem_assocSet h'' with h3 | h3
        · exact Or.inl h3
        · exact Or.inr ⟨bm, List.mem_cons_self _ _, by rw [h3]⟩
      · rw [if_neg hc] at h''
        exact Or.inl h''
    · obtain ⟨bm', hmem, hb⟩ := h''
      exact Or.inr ⟨bm', List.mem_cons_of_mem _ hmem, hb⟩

/-- Every entry of the branch-info dict built by step 4 carries the port and
RRU string of some matched line. -/
theorem resolve_ports_mem (pms : List PortMatch) (au : Option String)
    (e : String × (String × String)) (h : e ∈ resolve_ports pms au) :
    ∃ pm ∈ pms, e = (pm.branch, (pm.port, rru_string pm)) := by
  suffices H : ∀ (init : List (String × (String × String))),
      e ∈ pms.foldl (fun bi pm =>
        if some pm.au_group = au then
          assocSet bi pm.branch (pm.port, rru_string pm)
        else bi) init →
      e ∈ init ∨ ∃ pm ∈ pms, e = (pm.branch, (pm.port, rru_string pm)) by
    rcases H [] h with h' | h'
    · simp at h'
    · exact h'
  clear h
  induction pms with
  | nil => exact fun init h' => Or.inl h'
  | cons pm rest ih =>
    intro init h'
    rw [List.foldl_cons] at h'
    rcases ih _ h' with h'' | h''
    · by_cases hc : some pm.au_group = au
      · rw [if_pos hc] at h''
        rcases mem_assocSet h'' with h3 | h3
        · exact Or.inl h3
        · exact Or.inr ⟨pm, List.mem_cons_self _ _, h3⟩
      · rw [if_neg hc] at h''
        exact Or.inl h''
    · obtain ⟨pm', hmem, hb2⟩ := h''
      exact Or.inr ⟨pm', List.mem_cons_of_mem _ hmem, hb2⟩

/-- A report absent from the report-to-branch dict emits nothing. -/
theorem join_block_no_branch {cellv : Option String} {sc report : String}
    {prbs : List (Nat × Int)} {rtb : List (String × String)}
    {binfo : List (String × (String × String))}
    (hf : assocFind? rtb report = none) :
    join_block cellv sc report prbs rtb binfo = [] := by
  simp [join_block, hf]

/-- A report bound to the empty (falsy) branch emits nothing. -/
theorem join_block_empty_branch {cellv : Option String} {sc report : String}
    {prbs : List (Nat × Int)} {rtb : List (String × String)}
    {binfo : List (String × (String × String))}
    (hf : assocFind? rtb report = some "") :
    join_block cellv sc report prbs rtb binfo = [] := by
  simp [join_block, hf]

/-- A report whose branch is absent from the branch-info dict emits
nothing. -/
theorem join_block_no_port {cellv : Option String} {sc report branch : String}
    {prbs : List (Nat × Int)} {rtb : List (String × String)}
    {binfo : List (String × (String × String))}
    (hf : assocFind? rtb report = some branch) (_hb : ¬ branch = "")
    (hf2 : assocFind? binfo branch = none) :
    join_block cellv sc report prbs rtb binfo = [] := by
  simp [join_block, hf, hf2]

/-- A fully resolved report emits one reading per collected sample. -/
theorem join_block_resolved {cellv : Option String} {sc report branch : String}
    {pr : String × String} {prbs : List (Nat × Int)}
    {rtb : List (String × String)}
    {binfo : List (String × (String × String))}
    (hf : assocFind? rtb report = some branch) (hb : ¬ branch = "")
    (hf2 : assocFind? binfo branch = some pr) :
    join_block cellv sc report prbs rtb binfo =
      prbs.map (mkReading cellv sc report branch pr.1 pr.2) := by
  simp [join_block, hf, if_neg hb, hf2]

/-- Every reading emitted by the join step carries the bound cell, the
target sector carrier, and the branch, port and RRU found through the two
dict lookups. -/
theorem join_readings_mem {cellv : Option String} {sc : String}
    {rmap : List (String × List (Nat × Int))} {rtb : List (String × String)}
    {binfo : List (String × (String × String))} {r : PRBReading}
    (h : r ∈ join_readings cellv sc rmap rtb binfo) :
    r.cell = cellv ∧ r.sector_carrier = sc ∧
      ∃ report branch pr, assocFind? rtb report = some branch ∧
        assocFind? binfo branch = some pr ∧
        r.branch = branch ∧ r.port = pr.1 ∧ r.rru = pr.2 := by
  induction rmap with
  | nil => simp [join_readings] at h
  | cons e rest ih =>
    obtain ⟨report, prbs⟩ := e
    rw [join_readings] at h
    rcases List.mem_append.mp h with h' | h'
    · cases hf : assocFind? rtb report with
      | none => rw [join_block_no_branch hf] at h'; simp at h'
      | some branch =>
        by_cases hb : branch = ""
        · rw [hb] at hf
          rw [join_block_empty_branch hf] at h'
          simp at h'
        · cases hf2 : assocFind? binfo branch with
          | none => rw [join_block_no_port hf hb hf2] at h'; simp at h'
          | some pr =>
            rw [join_block_resolved hf hb hf2] at h'
            obtain ⟨pp, hpp, hr⟩ := List.mem_map.mp h'
            subst hr
            exact ⟨rfl, rfl, report, branch, pr, hf, hf2, rfl, rfl, rfl⟩
    · exact ih h'

/-- When every collected report resolves to a branch and a port, the join
step emits one reading per collected sample. -/
theorem join_readings_length {cellv : Option String} {sc : String}
    {rmap : List (String × List (Nat × Int))} {rtb : List (String × String)}
    {binfo : List (String × (String × String))} {k : Nat}
    (hk : ∀ e ∈ rmap, e.2.length = k)
    (hres : ∀ e ∈ rmap, resolvable rtb binfo e.1 = true) :
    (join_readings cellv sc rmap rtb binfo).length = rmap.length * k := by
  induction rmap with
  | nil => simp [join_readings]
  | cons e rest ih =>
    obtain ⟨report, prbs⟩ := e
    have h1 := hres (report, prbs) (List.mem_cons_self _ _)
    have h2 := hk (report, prbs) (List.mem_cons_self _ _)
    rw [join_readings, List.length_append]
    cases hf : assocFind? rtb report with
    | none => simp [resolvable, hf] at h1
    | some branch =>
      simp only [resolvable, hf, Bool.and_eq_true] at h1
      obtain ⟨hb', hs⟩ := h1
      have hb : ¬ branch = "" := by simpa using hb'
      cases hf2 : assocFind? binfo branch with
      | none => rw [hf2] at hs; simp at hs
      | some pr =>
        rw [join_block_resolved hf hb hf2, List.length_map]
        rw [ih (fun e he => hk e (List.mem_cons_of_mem _ he))
          (fun e he => hres e (List.mem_cons_of_mem _ he))]
        have h2' : prbs.length = k := h2
        rw [h2', List.length_cons]
        ring

/-- A string with a non-empty prefix is non-empty. -/
theorem append_ne_empty_left (s t : String) (hs : s ≠ "") : s ++ t ≠ "" := by
  cases s with
  | mk ds =>
    cases t with
    | mk dt =>
      intro h
      have hd : ds ++ dt = ([] : List Char) := congrArg String.data h
      rcases List.append_eq_nil.mp hd with ⟨h1, h2⟩
      exact hs (congrArg String.mk h1)

/-- Both RRU naming variants produce a non-empty string. -/
theorem rru_string_ne_empty (pm : PortMatch) : rru_string pm ≠ "" := by
  rw [rru_string]
  by_cases h2 : pm.hasR2
  · rw [if_pos h2]
    exact append_ne_empty_left _ _ (by decide)
  · rw [if_neg h2]
    exact append_ne_empty_left _ _ (by decide)

/-- Forget the cell field of a reading, to compare extraction results
independently of the topology-binding validation. -/
def stripCell (r : PRBReading) : PRBReading := { r with cell := none }

/-- The join step's output does not depend on the bound cell except through
the cell field of each emitted reading. -/
theorem join_readings_map_stripCell (c1 c2 : Option String) (sc : String)
    (rmap : List (String × List (Nat × Int))) (rtb : List (String × String))
    (binfo : List (String × (String × String))) :
    (join_readings c1 sc rmap rtb binfo).map stripCell =
      (join_readings c2 sc rmap rtb binfo).map stripCell := by
  induction rmap with
  | nil => rfl
  | cons e rest ih =>
    obtain ⟨report, prbs⟩ := e
    rw [join_readings, join_readings, List.map_append, List.map_append, ih]
    congr 1
    cases hf : assocFind? rtb report with
    | none => rw [join_block_no_branch hf, join_block_no_branch hf]
    | some branch =>
      by_cases hb : branch = ""
      · rw [hb] at hf
        rw [join_block_empty_branch hf, join_block_empty_branch hf]
      · cases hf2 : assocFind? binfo branch with
        | none => rw [join_block_no_port hf hb hf2, join_block_no_port hf hb hf2]
        | some pr =>
          rw [join_block_resolved hf hb hf2, join_block_resolved hf hb hf2,
            List.map_map, List.map_map]
          apply List.map_congr_left
          intro pp _
          rfl

/-- C9: every invocation of `parse_prb_data` first empties the accumulated
readings list (`self.readings.clear()`, line 460), so afterwards the
readings list holds exactly the readings emitted by this invocation, for
any prior analyzer state. -/
theorem parse_clears_previous_readings (st st' : AnalyzerState)
    (sc cellId : String) (m : AmosMatches) :
    (parse_prb_data st sc cellId m).readings =
      join_readings (cell_binding sc cellId m.cellCarriers) sc
        (collect_readings m.prbMatches sc)
        (resolve_branches m.branchMatches sc).2
        (resolve_ports m.portMatches (resolve_branches m.branchMatches sc).1) ∧
    (parse_prb_data st sc cellId m).readings =
      (parse_prb_data st' sc cellId m).readings :=
  ⟨rfl, rfl⟩

/-- C10: when the cell binding is not established (header pattern unmatched,
or a non-wildcard target sector carrier absent from the bound list), every
reading still emitted carries `cell = none` while its sector-carrier field
is the requested target id. -/
theorem unbound_cell_readings_have_none_cell (st : AnalyzerState)
    (sc cellId : String) (m : AmosMatches)
    (h : m.cellCarriers = none ∨
      (sc ≠ "*" ∧ ∀ cs, m.cellCarriers = some cs → sc ∉ cs))
    (r : PRBReading) (hr : r ∈ (parse_prb_data st sc cellId m).readings) :
    r.cell = none ∧ r.sector_carrier = sc := by
  have hc : cell_binding sc cellId m.cellCarriers = none := by
    rcases h with h | ⟨hw, hmem⟩
    · rw [h]
      rfl
    · cases hcc : m.cellCarriers with
      | none => rfl
      | some cs =>
        have hni := hmem cs hcc
        simp [cell_binding, hw, hni]
  have hr' : r ∈ join_readings (cell_binding sc cellId m.cellCarriers) sc
      (collect_readings m.prbMatches sc)
      (resolve_branches m.branchMatches sc).2
      (resolve_ports m.portMatches (resolve_branches m.branchMatches sc).1) := hr
  obtain ⟨hcell, hsc, -⟩ := join_readings_mem hr'
  rw [hc] at hcell
  exact ⟨hcell, hsc⟩

/-- C8: a failed topology-binding validation (non-wildcard target absent
from the bound list) emits the warning diagnostic but does not abort:
sample collection, branch resolution, port resolution and the join emit
the same readings (up to the cell field) as they would with a successful
binding. -/
theorem validation_failure_does_not_block_extraction (st : AnalyzerState)
    (sc cellId : String) (m : AmosMatches) (cs : List String)
    (h1 : m.cellCarriers = some cs) (h2 : sc ≠ "*") (h3 : sc ∉ cs) :
    cell_warning sc m.cellCarriers = true ∧
    (parse_prb_data st sc cellId m).readings.map stripCell =
      (parse_prb_data st sc cellId
        { m with cellCarriers := some [sc] }).readings.map stripCell ∧
    (parse_prb_data st sc cellId m).readings.length =
      (parse_prb_data st sc cellId
        { m with cellCarriers := some [sc] }).readings.length := by
  refine ⟨?_, ?_, ?_⟩
  · rw [h1]
    simp [cell_warning, h2, h3]
  · exact join_readings_map_stripCell _ _ sc _ _ _
  · have hmap := join_readings_map_stripCell
      (cell_binding sc cellId m.cellCarriers)
      (cell_binding sc cellId (some [sc])) sc
      (collect_readings m.prbMatches sc)
      (resolve_branches m.branchMatches sc).2
      (resolve_ports m.portMatches (resolve_branches m.branchMatches sc).1)
    have hlen := congrArg List.length hmap
    rw [List.length_map, List.length_map] at hlen
    exact hlen

/-- C1: if each of the N collected report ids carries exactly k samples for
the target sector carrier and each resolves through the report-to-branch
and branch-to-(port, RRU) dicts, the parser emits exactly N * k readings,
each with a non-empty branch, port and RRU field.  The two well-formedness
hypotheses record what the regexes guarantee: the branch group `(\d+)` and
the port group `([A-Z])` never capture an empty string. -/
theorem parse_emits_all_resolved_readings (st : AnalyzerState)
    (sc cellId : String) (m : AmosMatches) (k : Nat)
    (hwfB : ∀ bm ∈ m.branchMatches, bm.branch ≠ "")
    (hwfP : ∀ pm ∈ m.portMatches, pm.port ≠ "")
    (hk : ∀ e ∈ collect_readings m.prbMatches sc, e.2.length = k)
    (hres : ∀ e ∈ collect_readings m.prbMatches sc,
      resolvable (resolve_branches m.branchMatches sc).2
        (resolve_ports m.portMatches
          (resolve_branches m.branchMatches sc).1) e.1 = true) :
    (parse_prb_data st sc cellId m).readings.length =
      (collect_readings m.prbMatches sc).length * k ∧
    ∀ r ∈ (parse_prb_data st sc cellId m).readings,
      r.branch ≠ "" ∧ r.port ≠ "" ∧ r.rru ≠ "" := by
  constructor
  · exact join_readings_length hk hres
  · intro r hr
    have hr' : r ∈ join_readings (cell_binding sc cellId m.cellCarriers) sc
        (collect_readings m.prbMatches sc)
        (resolve_branches m.branchMatches sc).2
        (resolve_ports m.portMatches
          (resolve_branches m.branchMatches sc).1) := hr
    obtain ⟨-, -, report, branch, pr, hf, hf2, hbr, hport, hrru⟩ :=
      join_readings_mem hr'
    have hmem1 : (report, branch) ∈ (resolve_branches m.branchMatches sc).2 :=
      assocFind?_mem hf
    obtain ⟨bm, hbm, hbranch⟩ := resolve_branches_mem _ _ _ hmem1
    have hmem2 : (branch, pr) ∈ resolve_ports m.portMatches
        (resolve_branches m.branchMatches sc).1 := assocFind?_mem hf2
    obtain ⟨pm, hpm, hpr⟩ := resolve_ports_mem _ _ _ hmem2
    have hbranch' : branch = bm.branch := hbranch
    simp only [Prod.mk.injEq] at hpr
    obtain ⟨-, hprv⟩ := hpr
    refine ⟨?_, ?_, ?_⟩
    · rw [hbr, hbranch']
      exact hwfB bm hbm
    · rw [hport, hprv]
      exact hwfP pm hpm
    · rw [hrru, hprv]
      exact rru_string_ne_empty pm

/-- A concrete cleaned-text scan result with two reports of two samples
each, fully resolved (the §8 scenario of the spec, extended to two
reports). -/
def exampleMatches : AmosMatches :=
  { stopfileTime := none
  , cellCarriers := some ["12C1"]
  , prbMatches :=
      [ ⟨"12C1", "3", 5, 131072⟩
      , ⟨"12C1", "3", 6, 7⟩
      , ⟨"12C1", "4", 1, 9⟩
      , ⟨"12C1", "4", 2, 10⟩ ]
  , branchMatches := [⟨"12C1", "3", "A1", "2"⟩, ⟨"12C1", "4", "A1", "1"⟩]
  , portMatches :=
      [⟨"A1", "2", "7", "B", false⟩, ⟨"A1", "1", "7", "A", false⟩] }

/-- An empty analyzer state. -/
def emptyState : AnalyzerState := { readings := [], sector_stopfile_times := [] }

/-- Witness for C1 at the concrete example: two reports of two samples each
yield 2 * 2 readings. -/
theorem parse_emits_all_resolved_readings_witness :
    (parse_prb_data emptyState "12C1" "123456_1" exampleMatches).readings.length =
      (collect_readings exampleMatches.prbMatches "12C1").length * 2 :=
  (parse_emits_all_resolved_readings emptyState "12C1" "123456_1"
    exampleMatches 2 (by decide) (by decide) (by decide) (by decide)).1

/-- Witness for C8: with the bound list `["99X9"]` the validation for
target `12C1` fails, the warning is emitted, and the emitted readings
count equals the successful-binding count. -/
theorem validation_failure_does_not_block_extraction_witness :
    cell_warning "12C1"
      ({ exampleMatches with cellCarriers := some ["99X9"] } :
        AmosMatches).cellCarriers = true ∧
    (parse_prb_data emptyState "12C1" "123456_1"
      { exampleMatches with cellCarriers := some ["99X9"] }).readings.length =
    (parse_prb_data emptyState "12C1" "123456_1"
      { { exampleMatches with cellCarriers := some ["99X9"] } with
        cellCarriers := some ["12C1"] }).readings.length := by
  have h := validation_failure_does_not_block_extraction emptyState "12C1"
    "123456_1" { exampleMatches with cellCarriers := some ["99X9"] }
    ["99X9"] rfl (by decide) (by decide)
  exact ⟨h.1, h.2.2⟩

/-- Witness for C10: with no cell header match, the first emitted reading
carries `cell = none` and the requested sector carrier. -/
theorem unbound_cell_readings_have_none_cell_witness :
    ({ report := "pmRadioRecInterferencePwrBrPrb5", prb_num := 5
     , power := 131072, rru := "RRU-7", branch := "2", port := "B"
     , cell := none, sector_carrier := "12C1", frequency := ""
     , interference_report := 3 } : PRBReading).cell = none ∧
    ({ report := "pmRadioRecInterferencePwrBrPrb5", prb_num := 5
     , power := 131072, rru := "RRU-7", branch := "2", port := "B"
     , cell := none, sector_carrier := "12C1", frequency := ""
     , interference_report := 3 } : PRBReading).sector_carrier = "12C1" :=
  unbound_cell_readings_have_none_cell emptyState "12C1" "123456_1"
    { exampleMatches with cellCarriers := none } (Or.inl rfl) _ (by decide)

/-- The calculator `SpectralAnalyzer.calculate_power` (lines 602-632), with floats
modelled as reals.  `samples == 0` raises a `ZeroDivisionError` that the
handler turns into `self.chart_min`, and `math.log10` raises a
`ValueError` on a non-positive argument that the handler also turns into
`self.chart_min`; both are modelled by returning `chart_min` directly. -/
noncomputable def calculate_power (power : ℝ) (samples : ℕ)
    (chart_min : ℝ) : ℝ :=
  if samples = 0 then chart_min
  else
    let avg_power_mw := power / (samples : ℝ)
    let adjusted_power := avg_power_mw * (2 : ℝ) ^ (-44 : ℤ)
    if adjusted_power ≤ 0 then chart_min
    else 10 * Real.logb 10 adjusted_power

/-- On the valid-logarithm branch the calculator returns
`10 * log10 (power / samples * 2^-44)`. -/
theorem calculate_power_pos_branch (power chart_min : ℝ) (samples : ℕ)
    (hs : samples ≠ 0)
    (hpos : 0 < power / (samples : ℝ) * (2 : ℝ) ^ (-44 : ℤ)) :
    calculate_power power samples chart_min =
      10 * Real.logb 10 (power / (samples : ℝ) * (2 : ℝ) ^ (-44 : ℤ)) := by
  rw [calculate_power, if_neg hs]
  simp only [if_neg (not_le.mpr hpos)]

/-- C3: with `sampleCount = 0` the calculator returns the floor without
dividing, and whenever the de-scaled average is not a valid logarithm
argument it returns the floor instead of raising. -/
theorem calculate_power_floor_cases (power chart_min : ℝ) (samples : ℕ) :
    calculate_power power 0 chart_min = chart_min ∧
    (samples ≠ 0 → power / (samples : ℝ) * (2 : ℝ) ^ (-44 : ℤ) ≤ 0 →
      calculate_power power samples chart_min = chart_min) := by
  constructor
  · rw [calculate_power, if_pos rfl]
  · intro hs hadj
    rw [calculate_power, if_neg hs]
    simp only [if_pos hadj]

/-- Witness for C3 at `power = -1`, `samples = 1`, floor `-125` (log-domain
branch) and `samples = 0` (zero-division branch). -/
theorem calculate_power_floor_cases_witness :
    calculate_power (-1) 1 (-125) = -125 ∧
    calculate_power (-1) 0 (-125) = -125 := by
  refine ⟨?_, (calculate_power_floor_cases (-1) (-125) 1).1⟩
  refine (calculate_power_floor_cases (-1) (-125) 1).2 one_ne_zero ?_
  have h2 : (0 : ℝ) < (2 : ℝ) ^ (-44 : ℤ) := by positivity
  have he : (-1 : ℝ) / ((1 : ℕ) : ℝ) * (2 : ℝ) ^ (-44 : ℤ) =
      -((2 : ℝ) ^ (-44 : ℤ)) := by
    push_cast
    ring
  rw [he]
  linarith

/-- C7 counterexample: the calculator is not strictly increasing in the
raw power over all raw values: at `raw = 0` it returns the floor `-125`,
while at `raw = 1` (samples 1) it returns `10 * log10 (2^-44) < -125`. -/
theorem calculate_power_not_monotone_at_zero :
    calculate_power 1 1 (-125) < calculate_power 0 1 (-125) := by
  have h0 : calculate_power 0 1 (-125) = -125 := by
    norm_num [calculate_power]
  have h1 := calculate_power_pos_branch 1 (-125) 1 one_ne_zero (by norm_num)
  rw [h0, h1]
  have hsimp : (1 : ℝ) / ((1 : ℕ) : ℝ) * (2 : ℝ) ^ (-44 : ℤ) =
      (2 : ℝ) ^ (-44 : ℤ) := by
    push_cast
    ring
  rw [hsimp]
  have hlog10 : (0 : ℝ) < Real.log 10 := Real.log_pos (by norm_num)
  have hkey : Real.log ((10 : ℝ) ^ (25 : ℕ)) < Real.log ((2 : ℝ) ^ (88 : ℕ)) :=
    Real.log_lt_log (by positivity) (by norm_num)
  rw [Real.log_pow, Real.log_pow] at hkey
  push_cast at hkey
  have hlz : Real.log ((2 : ℝ) ^ (-44 : ℤ)) = (-44) * Real.log 2 := by
    rw [Real.log_zpow]
    norm_num
  rw [Real.logb, hlz]
  rw [show (10 : ℝ) * ((-44) * Real.log 2 / Real.log 10) =
      (-440) * Real.log 2 / Real.log 10 by ring]
  rw [div_lt_iff₀ hlog10]
  nlinarith [hkey]

/-- C7 amended: for a fixed positive sample count the calculator is
strictly increasing in the raw power over positive raw values (raw values
whose de-scaled average stays positive); at or below zero it clamps to the
floor, so the original unrestricted claim fails (see the counterexample). -/
theorem calculate_power_strictMono_pos (samples : ℕ) (chart_min a b : ℝ)
    (hs : samples ≠ 0) (ha : 0 < a) (hab : a < b) :
    calculate_power a samples chart_min <
      calculate_power b samples chart_min := by
  have hspos : (0 : ℝ) < (samples : ℝ) := by
    exact_mod_cast Nat.pos_of_ne_zero hs
  have hb : 0 < b := lt_trans ha hab
  have hfac : (0 : ℝ) < (2 : ℝ) ^ (-44 : ℤ) := by positivity
  have hadja : 0 < a / (samples : ℝ) * (2 : ℝ) ^ (-44 : ℤ) := by positivity
  have hadjb : 0 < b / (samples : ℝ) * (2 : ℝ) ^ (-44 : ℤ) := by positivity
  have hdiv : a / (samples : ℝ) < b / (samples : ℝ) := by gcongr
  have hlt : a / (samples : ℝ) * (2 : ℝ) ^ (-44 : ℤ) <
      b / (samples : ℝ) * (2 : ℝ) ^ (-44 : ℤ) :=
    mul_lt_mul_of_pos_right hdiv hfac
  rw [calculate_power_pos_branch a chart_min samples hs hadja,
    calculate_power_pos_branch b chart_min samples hs hadjb]
  have hlb := Real.logb_lt_logb (by norm_num : (1 : ℝ) < 10) hadja hlt
  linarith

/-- Witness for the amended C7 at `samples = 1`, floor `0`, raw `1 < 2`. -/
theorem calculate_power_strictMono_pos_witness :
    calculate_power 1 1 0 < calculate_power 2 1 0 :=
  calculate_power_strictMono_pos 1 0 1 2 one_ne_zero one_pos one_lt_two

/-- Python `str.split(sep)` for a one-character separator: split at every
occurrence, keeping empty pieces (`"".split(sep) == [""]`). -/
def splitOnSep (sep : Char) : List Char → List (List Char)
  | [] => [[]]
  | c :: cs =>
    if c = sep then [] :: splitOnSep sep cs
    else
      match splitOnSep sep cs with
      | [] => [[c]]
      | h :: t => (c :: h) :: t

/-- A split never yields the empty list of pieces. -/
theorem splitOnSep_ne_nil (sep : Char) (l : List Char) :
    splitOnSep sep l ≠ [] := by
  induction l with
  | nil => simp [splitOnSep]
  | cons c cs ih =>
    by_cases hc : c = sep
    · simp [splitOnSep, hc]
    · rw [splitOnSep, if_neg hc]
      cases hsp : splitOnSep sep cs with
      | nil => simp
      | cons h t => simp

/-- Splitting a separator-free string yields the string itself. -/
theorem splitOnSep_sep_free (sep : Char) (p : List Char) (h : sep ∉ p) :
    splitOnSep sep p = [p] := by
  induction p with
  | nil => rfl
  | cons c cs ih =>
    have hc : ¬ c = sep := fun hcc => h (by simp [hcc])
    have ih' := ih (fun hm => h (List.mem_cons_of_mem _ hm))
    rw [splitOnSep, if_neg hc, ih']

/-- Splitting past a separator-free first piece peels it off. -/
theorem splitOnSep_append (sep : Char) (p : List Char) (h : sep ∉ p)
    (r : List Char) :
    splitOnSep sep (p ++ sep :: r) = p :: splitOnSep sep r := by
  induction p with
  | nil => simp [splitOnSep]
  | cons c cs ih =>
    have hc : ¬ c = sep := fun hcc => h (by simp [hcc])
    have ih' := ih (fun hm => h (List.mem_cons_of_mem _ hm))
    rw [List.cons_append, splitOnSep, if_neg hc, ih']

/-- The extractor `SpectralAnalyzer.calculate_samples` (lines 581-600): look up the
stored stopfile time, take the `HH:MM:SS` part (`split('-')[1]`), extract
minutes (`% 15`) and seconds, and compute
`((60 * minutes) + seconds) * 1000 / 40` truncated to an integer (the
value is exact, so float division followed by `int()` equals `Nat`
division).  Any lookup, index or parse failure is caught by the
`except` handler and yields 0. -/
def calculate_samples (times : List (String × List Char))
    (sector : String) : Nat :=
  match assocFind? times sector with
  | none => 0
  | some stopfile_time =>
    match (splitOnSep '-' stopfile_time)[1]? with
    | none => 0
    | some time_part =>
      match (splitOnSep ':' time_part)[1]?, (splitOnSep ':' time_part)[2]? with
      | some mstr, some sstr =>
        match parseNat? mstr, parseNat? sstr with
        | some m0, some seconds => ((60 * (m0 % 15)) + seconds) * 1000 / 40
        | _, _ => 0
      | _, _ => 0

/-- Python `'\n'.join(lines)`. -/
def joinLines : List (List Char) → List Char
  | [] => []
  | [l] => l
  | l :: rest => l ++ '\n' :: joinLines rest

/-- Python `str.splitlines()` restricted to `\n` line breaks (the only
break this model's captured channel text contains): like `split('\n')`
except that a trailing newline adds no empty final line and the empty
string has no lines. -/
def splitlines (s : List Char) : List (List Char) :=
  if s = [] then []
  else if s.getLast? = some '\n' then (splitOnSep '\n' s).dropLast
  else splitOnSep '\n' s

/-- The retrieval step `SpectralAnalyzer.read_logfile` (lines 409-451): fail when no logfile
path is stored (`if not logfile`) or when the captured text is empty
(`if not content`, checked on the raw text, before any stripping);
otherwise strip the first line (command echo) and the last line (prompt
line) via `content.splitlines()[1:-1]`, store the remaining lines joined
by newlines, and report success.  The no-active-channel `RuntimeError`
path is outside this model, which takes the captured channel text as
input. -/
def read_logfile (log_path : String) (content : List Char) :
    Bool × Option (List Char) :=
  if log_path = "" then (false, none)
  else if content = [] then (false, none)
  else
    let content_lines := ((splitlines content).drop 1).dropLast
    (true, some (joinLines content_lines))

/-- Unfolding equation for `joinLines` on two or more lines. -/
theorem joinLines_cons_cons (l l2 : List Char) (rest : List (List Char)) :
    joinLines (l :: l2 :: rest) = l ++ '\n' :: joinLines (l2 :: rest) := rfl

/-- A join of lines ending in a non-empty line is non-empty. -/
theorem joinLines_ne_nil (lines : List (List Char)) (hne : lines ≠ [])
    (hlast : lines.getLast? ≠ some []) : joinLines lines ≠ [] := by
  cases lines with
  | nil => exact absurd rfl hne
  | cons l rest =>
    cases rest with
    | nil =>
      intro h
      have hl : l = [] := h
      apply hlast
      rw [hl]
      rfl
    | cons l2 rest2 =>
      rw [joinLines_cons_cons]
      simp

/-- The last character of a join of lines ending in a non-empty line is
the last character of the last line. -/
theorem joinLines_getLast? (lines : List (List Char)) (ll : List Char)
    (hl : lines.getLast? = some ll) (hll : ll ≠ []) :
    (joinLines lines).getLast? = ll.getLast? := by
  induction lines with
  | nil => simp at hl
  | cons l rest ih =>
    cases rest with
    | nil =>
      have hlleq : l = ll := by simpa using hl
      rw [show joinLines [l] = l from rfl, hlleq]
    | cons l2 rest2 =>
      rw [List.getLast?_cons_cons] at hl
      have hlast2 : (l2 :: rest2).getLast? ≠ some [] := by
        rw [hl]
        simp [hll]
      have hjn : joinLines (l2 :: rest2) ≠ [] :=
        joinLines_ne_nil _ (by simp) hlast2
      rw [joinLines_cons_cons,
        List.getLast?_append_of_ne_nil _ (show ('\n' :: joinLines (l2 :: rest2)) ≠ [] by simp)]
      cases hJ : joinLines (l2 :: rest2) with
      | nil => exact absurd hJ hjn
      | cons j js =>
        rw [List.getLast?_cons_cons]
        have hih := ih hl
        rw [hJ] at hih
        exact hih

/-- Splitting a newline-join of newline-free lines recovers the lines. -/
theorem splitOnSep_joinLines (lines : List (List Char))
    (h : ∀ l ∈ lines, '\n' ∉ l) (hne : lines ≠ []) :
    splitOnSep '\n' (joinLines lines) = lines := by
  induction lines with
  | nil => exact absurd rfl hne
  | cons l rest ih =>
    cases rest with
    | nil => exact splitOnSep_sep_free _ _ (h l (List.mem_cons_self _ _))
    | cons l2 rest2 =>
      rw [joinLines_cons_cons,
        splitOnSep_append '\n' l (h l (List.mem_cons_self _ _)),
        ih (fun x hx => h x (List.mem_cons_of_mem _ hx)) (by simp)]

/-- C5 amended: the log-retrieval step strips exactly the first line
(command echo) and the last line (prompt line) and stores the remaining
lines joined, reporting success; the empty-content failure is detected on
the raw captured text BEFORE stripping, so text that becomes empty only
after stripping (at most two lines) is still reported as success with
empty stored content, contrary to the original claim. -/
theorem read_logfile_strips_first_last (log_path : String)
    (hlp : ¬ log_path = "") (lines : List (List Char))
    (hnl : ∀ l ∈ lines, '\n' ∉ l) (hne : lines ≠ [])
    (hlast : lines.getLast? ≠ some []) :
    read_logfile log_path (joinLines lines) =
      (true, some (joinLines ((lines.drop 1).dropLast))) ∧
    read_logfile log_path [] = (false, none) := by
  constructor
  · have hll : lines.getLast? = some (lines.getLast hne) :=
      List.getLast?_eq_getLast_of_ne_nil hne
    have hllne : lines.getLast hne ≠ [] := by
      intro hc
      apply hlast
      rw [hll, hc]
    have hjoin_ne : joinLines lines ≠ [] := joinLines_ne_nil lines hne hlast
    have hnlast : ¬ (joinLines lines).getLast? = some '\n' := by
      rw [joinLines_getLast? lines _ hll hllne,
        List.getLast?_eq_getLast_of_ne_nil hllne]
      intro hc
      rw [Option.some.injEq] at hc
      have hmem := List.getLast_mem hllne
      rw [hc] at hmem
      exact hnl _ (List.getLast_mem hne) hmem
    simp only [read_logfile, if_neg hlp, if_neg hjoin_ne, splitlines,
      if_neg hnlast, splitOnSep_joinLines lines hnl hne]
  · simp [read_logfile, hlp]

/-- Witness for the amended C5 on three one-character lines. -/
theorem read_logfile_strips_first_last_witness :
    read_logfile "path" (joinLines [['e'], ['m'], ['p']]) =
      (true, some (joinLines (([['e'], ['m'], ['p']].drop 1).dropLast))) :=
  (read_logfile_strips_first_last "path" (by decide) [['e'], ['m'], ['p']]
    (by decide) (by decide) (by decide)).1

/-- C5 counterexample: a captured text of exactly two lines (echo and
prompt) strips to nothing, yet `read_logfile` reports success with empty
stored content instead of the claimed non-exceptional failure. -/
theorem read_logfile_two_line_success :
    read_logfile "path" ('c' :: 'm' :: '\n' :: 'p' :: 'r' :: []) =
      (true, some []) := by decide

/-- C4: for a stored stopfile timestamp `date-HH:MM:SS-zone` whose minute
field parses to m and second field to s, `calculate_samples` returns the
integer truncation of `((m mod 15) * 60 + s) * 1000 / 40`; for a sector
with no stored timestamp it returns 0 without raising. -/
theorem calculate_samples_formula (times : List (String × List Char))
    (sector : String) (date hh mm ss tz : List Char) (m s : Nat)
    (hstore : assocFind? times sector =
      some (date ++ ('-' :: ((hh ++ (':' :: (mm ++ (':' :: ss)))) ++ ('-' :: tz)))))
    (hdate : '-' ∉ date)
    (hhc : ':' ∉ hh) (hhd : '-' ∉ hh)
    (hmc : ':' ∉ mm) (hmd : '-' ∉ mm)
    (hsc : ':' ∉ ss) (hsd : '-' ∉ ss)
    (hpm : parseNat? mm = some m) (hps : parseNat? ss = some s) :
    calculate_samples times sector = ((m % 15) * 60 + s) * 1000 / 40 ∧
    ∀ sector2, assocFind? times sector2 = none →
      calculate_samples times sector2 = 0 := by
  constructor
  · have hdt : ('-' : Char) ∉ hh ++ (':' :: (mm ++ (':' :: ss))) := by
      simp only [List.mem_append, List.mem_cons]
      push_neg
      exact ⟨hhd, by decide, hmd, by decide, hsd⟩
    simp only [calculate_samples, hstore,
      splitOnSep_append '-' date hdate,
      splitOnSep_append '-' _ hdt,
      splitOnSep_append ':' hh hhc,
      splitOnSep_append ':' mm hmc,
      splitOnSep_sep_free ':' ss hsc,
      List.getElem?_cons_succ, List.getElem?_cons_zero,
      hpm, hps]
    omega
  · intro sector2 h2
    simp only [calculate_samples, h2]

/-- The stored timestamp of the §8 scenario. -/
def exampleTimes : List (String × List Char) :=
  [("S1", "250109-08:35:24-0600".data)]

/-- Witness for C4 at the stored timestamp `250109-08:35:24-0600`:
minute 35, second 24. -/
theorem calculate_samples_formula_witness :
    calculate_samples exampleTimes "S1" = ((35 % 15) * 60 + 24) * 1000 / 40 :=
  (calculate_samples_formula exampleTimes "S1" "250109".data "08".data
    "35".data "24".data "0600".data 35 24 (by decide) (by decide) (by decide)
    (by decide) (by decide) (by decide) (by decide) (by decide) (by decide)
    (by decide)).1

/-- The grouping loop of `SpectralAnalyzer.draw_power_bars` (lines
650-654): `grouped_readings = defaultdict(list)` filled with
`grouped_readings[(reading.branch, reading.port)].append(reading)` in
list order. -/
def grouped_readings (readings : List PRBReading) :
    List ((String × String) × List PRBReading) :=
  readings.foldl (fun acc r => assocAppend acc (r.branch, r.port) r) []

/-- Looking up after a `defaultdict` append: the appended key gains the
element at the end, all other keys are untouched. -/
theorem assocFind?_assocAppend {α β : Type} [DecidableEq α]
    (l : List (α × List β)) (k : α) (x : β) (k' : α) :
    assocFind? (assocAppend l k x) k' =
      if k' = k then some ((assocFind? l k').getD [] ++ [x])
      else assocFind? l k' := by
  induction l with
  | nil =>
    by_cases h : k' = k
    · subst h
      simp [assocAppend, assocFind?]
    · have hne : ¬ k = k' := fun hc => h hc.symm
      simp [assocAppend, assocFind?, h, hne]
  | cons p t ih =>
    obtain ⟨pk, pv⟩ := p
    by_cases hpk : pk = k
    · subst hpk
      by_cases h : k' = pk
      · subst h
        simp [assocAppend, assocFind?]
      · have hne : ¬ pk = k' := fun hc => h hc.symm
        simp [assocAppend, assocFind?, h, hne]
    · by_cases h : k' = pk
      · subst h
        have hne : ¬ k' = k := fun hc => hpk (by rw [← hc])
        simp [assocAppend, assocFind?, hpk, hne]
      · have hne : ¬ pk = k' := fun hc => h hc.symm
        rw [assocAppend, if_neg hpk, assocFind?, if_neg hne, ih,
          assocFind?, if_neg hne]

/-- The grouping fold computed from any accumulator: the list bound to a
key is the accumulator's list extended by the readings with that key, in
their input order. -/
theorem grouped_go (rs : List PRBReading) :
    ∀ (acc : List ((String × String) × List PRBReading))
      (key : String × String),
      (assocFind? (rs.foldl
          (fun a r => assocAppend a (r.branch, r.port) r) acc) key).getD []
        = (assocFind? acc key).getD []
          ++ rs.filter (fun x => decide ((x.branch, x.port) = key)) := by
  induction rs with
  | nil =>
    intro acc key
    simp
  | cons r rest ih =>
    intro acc key
    rw [List.foldl_cons, ih, assocFind?_assocAppend, List.filter_cons]
    by_cases h : key = (r.branch, r.port)
    · rw [if_pos h]
      have hd : decide ((r.branch, r.port) = key) = true := by
        subst h
        simp
      rw [hd]
      simp
    · rw [if_neg h]
      have hd : decide ((r.branch, r.port) = key) = false := by
        simp only [decide_eq_false_iff_not]
        exact fun hc => h hc.symm
      rw [hd]
      simp

/-- A group found in the grouped mapping is exactly the (stable-order)
filter of the input readings at that key. -/
theorem grouped_find_eq_filter (rs : List PRBReading) (key : String × String)
    (vs : List PRBReading)
    (h : assocFind? (grouped_readings rs) key = some vs) :
    vs = rs.filter (fun x => decide ((x.branch, x.port) = key)) := by
  have hg : (assocFind? (grouped_readings rs) key).getD []
      = (assocFind? ([] : List ((String × String) × List PRBReading)) key).getD []
        ++ rs.filter (fun x => decide ((x.branch, x.port) = key)) :=
    grouped_go rs [] key
  rw [h] at hg
  simpa using hg

/-- Every reading belongs to the group of its own (branch, port) key. -/
theorem grouped_find_covers (rs : List PRBReading) (r : PRBReading)
    (hr : r ∈ rs) :
    ∃ vs, assocFind? (grouped_readings rs) (r.branch, r.port) = some vs ∧
      r ∈ vs := by
  have hg : (assocFind? (grouped_readings rs) (r.branch, r.port)).getD []
      = rs.filter (fun x => decide ((x.branch, x.port) = (r.branch, r.port))) := by
    have hgo := grouped_go rs [] (r.branch, r.port)
    simpa using hgo
  have hrmem : r ∈ rs.filter
      (fun x => decide ((x.branch, x.port) = (r.branch, r.port))) :=
    List.mem_filter.mpr ⟨hr, by simp⟩
  cases hf : assocFind? (grouped_readings rs) (r.branch, r.port) with
  | none =>
    rw [hf] at hg
    simp only [Option.getD_none] at hg
    rw [← hg] at hrmem
    simp at hrmem
  | some vs =>
    refine ⟨vs, rfl, ?_⟩
    rw [hf] at hg
    simp only [Option.getD_some] at hg
    rw [hg]
    exact hrmem

/-- C6 amended: the aggregator groups readings by their (branch, port)
key — every reading lands in the group of its own key — and within every
group the readings keep their original input order (the group is the
stable filter of the input); the aggregator does not sort by prb_index,
so ascending prb order holds only when the input was already ordered
(see the counterexample). -/
theorem draw_power_bars_groups_stable (readings : List PRBReading) :
    (∀ r ∈ readings, ∃ vs,
       assocFind? (grouped_readings readings) (r.branch, r.port) = some vs ∧
         r ∈ vs) ∧
    (∀ key vs, assocFind? (grouped_readings readings) key = some vs →
       vs = readings.filter (fun x => decide ((x.branch, x.port) = key))) :=
  ⟨fun r hr => grouped_find_covers readings r hr,
   fun key vs h => grouped_find_eq_filter readings key vs h⟩

/-- A reading with PRB index 5 on branch 2, port B. -/
def readingA : PRBReading :=
  { report := "pmRadioRecInterferencePwrBrPrb5", prb_num := 5, power := 131072
  , rru := "RRU-7", branch := "2", port := "B", cell := some "123456_1"
  , sector_carrier := "12C1", frequency := "", interference_report := 3 }

/-- A reading with PRB index 3 on the same branch and port. -/
def readingB : PRBReading :=
  { readingA with prb_num := 3, report := "pmRadioRecInterferencePwrBrPrb3" }

/-- Witness for the amended C6: on a one-element input the found group is
the stable filter at its key. -/
theorem draw_power_bars_groups_stable_witness :
    ([readingA] : List PRBReading) =
      [readingA].filter (fun x => decide ((x.branch, x.port) = ("2", "B"))) :=
  (draw_power_bars_groups_stable [readingA]).2 ("2", "B") [readingA] (by decide)

/-- C6 counterexample: readings arriving with PRB indices 5 then 3 on one
(branch, port) key are grouped in that same order, so the group is not
ordered by ascending prb_index. -/
theorem draw_power_bars_groups_not_sorted :
    assocFind? (grouped_readings [readingA, readingB]) ("2", "B") =
      some [readingA, readingB] ∧
    ¬ List.Pairwise (fun a b => a.prb_num ≤ b.prb_num)
        [readingA, readingB] := by
  constructor
  · decide
  · intro hp
    have h53 : readingA.prb_num ≤ readingB.prb_num := by
      cases hp with
      | cons hhead _ => exact hhead readingB (List.mem_cons_self _ _)
    revert h53
    decide

/-- Substring containment, Python's `needle in hay`. -/
def containsStr (needle hay : String) : Prop :=
  needle.data <:+: hay.data

instance containsStrDecidable (needle hay : String) :
    Decidable (containsStr needle hay) :=
  List.decidableInfix needle.data hay.data

/-- The middle part of a three-way concatenation is contained. -/
theorem containsStr_of_append (a b c : String) : containsStr b (a ++ b ++ c) :=
  ⟨a.data, c.data, by simp [String.data_append]⟩

/-- A string contains itself. -/
theorem containsStr_refl (s : String) : containsStr s s :=
  ⟨[], [], by simp⟩

/-- Containment extends through a left append. -/
theorem containsStr_append_right (s t needle : String)
    (h : containsStr needle t) : containsStr needle (s ++ t) := by
  obtain ⟨x, y, hxy⟩ := h
  exact ⟨s.data ++ x, y, by rw [String.data_append, ← hxy]; simp⟩

/-- Containment extends through a right append. -/
theorem containsStr_append_left (s t needle : String)
    (h : containsStr needle s) : containsStr needle (s ++ t) := by
  obtain ⟨x, y, hxy⟩ := h
  exact ⟨x, y ++ t.data, by rw [String.data_append, ← hxy]; simp⟩

/-- Containment is transitive. -/
theorem containsStr_trans {a b c : String} (h1 : containsStr a b)
    (h2 : containsStr b c) : containsStr a c :=
  List.IsInfix.trans h1 h2

/-- The fixed middle of the AMOS macro line (lines 258-263 and 277-282),
between the seed and the per-cell filter: defines the `ref_loop` routine
that fetches the PRB interference counters, the branch references, the
port references and the owning cell id. -/
def ref_loop_body : String :=
  ".log; func ref_loop; get \\$mo sectorcarrierref > \\$seccarref;\\$splitref = split(\\$seccarref); for \\$j = 6 to \\$split_last; \\$seccarref = \\$splitref[\\$j];pget \\$seccarref,PmUlInterferenceReport=.* pmradiorecinterferencepwrbrprb [^0];get \\$seccarref,PmUlInterferenceReport=.* rfbranchrxref; get rfbranch rfportref;get \\$mo EUtranCellFDDId; done; endfunc; lt all; mr active_cells;"

/-- The fixed tail of the AMOS macro line: run the loop over the active
cells, close the log capture and print the logfile path. -/
def amos_tail : String :=
  "; for \\$mo in active_cells;ref_loop;done; mr active_cells; l-; pv logfile$;\""

/-- One per-cell activation filter of
`construct_amos_command_sc_fdd` (line 272). -/
def cell_filter_line (fdd : String) : String :=
  "ma active_cells eutrancellfdd." ++ fdd ++ " operationalstate 1"

/-- Python `'; '.join`. -/
def joinSemiSpace : List String → String
  | [] => ""
  | [s] => s
  | s :: rest => s ++ "; " ++ joinSemiSpace rest

/-- The builder `SpectralAnalyzer.construct_amos_command_sc_fdd` (lines 267-284).  The
Python set comprehension `{pair[1] for pair in pairs}` is modelled as
`dedup` of the cell ids in order of first occurrence; the claims proved
below do not depend on the set's iteration order.  String concatenation is
associated to expose the source's f-string slots; the resulting string is
identical. -/
def construct_amos_command_sc_fdd (enb_id remote_user : String)
    (pairs : List (String × String)) (seed : String) : String :=
  let fdds := (pairs.map Prod.snd).dedup
  let cell_filter_cmd := joinSemiSpace (fdds.map cell_filter_line)
  "amos " ++ enb_id ++
    (" \"l+ /home/shared/" ++ remote_user ++
      ("/spec_an_gui/" ++ seed ++
        (ref_loop_body ++ (cell_filter_cmd ++ amos_tail))))

/-- The builder `SpectralAnalyzer.construct_amos_command_enb` (lines 254-265): same
macro line with the fixed all-cells activation filter. -/
def construct_amos_command_enb (enb_id remote_user seed : String) : String :=
  "amos " ++ enb_id ++
    (" \"l+ /home/shared/" ++ remote_user ++
      ("/spec_an_gui/" ++ seed ++
        (ref_loop_body ++
          ("ma active_cells eutrancellfdd.* operationalstate 1" ++ amos_tail))))

/-- Each element of a `'; '.join` is contained in the joined string. -/
theorem joinSemiSpace_contains (L : List String) (s : String) (hs : s ∈ L) :
    containsStr s (joinSemiSpace L) := by
  induction L with
  | nil => simp at hs
  | cons t rest ih =>
    rcases List.mem_cons.mp hs with h | h
    · subst h
      cases rest with
      | nil => exact containsStr_refl s
      | cons u rest2 =>
        exact containsStr_append_left _ _ _
          (containsStr_append_left _ _ _ (containsStr_refl s))
    · cases rest with
      | nil => simp at h
      | cons u rest2 =>
        exact containsStr_append_right _ _ _ (ih h)

/-- C2 amended: the builder's single command line contains the supplied
element id and every supplied cell id verbatim; the supplied sector-carrier
ids are NOT embedded in the command (the command fetches all sector
carriers and the sector filter is applied later, at parse time) — see the
counterexample. -/
theorem command_contains_enb_and_cells (enb_id remote_user seed : String)
    (pairs : List (String × String)) :
    containsStr enb_id
      (construct_amos_command_sc_fdd enb_id remote_user pairs seed) ∧
    (∀ p ∈ pairs, containsStr p.2
      (construct_amos_command_sc_fdd enb_id remote_user pairs seed)) ∧
    containsStr enb_id (construct_amos_command_enb enb_id remote_user seed) := by
  refine ⟨?_, ?_, ?_⟩
  · exact containsStr_of_append "amos " enb_id _
  · intro p hp
    show containsStr p.2
      ("amos " ++ enb_id ++
        (" \"l+ /home/shared/" ++ remote_user ++
          ("/spec_an_gui/" ++ seed ++
            (ref_loop_body ++
              (joinSemiSpace (((pairs.map Prod.snd).dedup).map cell_filter_line)
                ++ amos_tail)))))
    have h1 : containsStr p.2 (cell_filter_line p.2) :=
      containsStr_of_append "ma active_cells eutrancellfdd." p.2
        " operationalstate 1"
    have h2 : containsStr (cell_filter_line p.2)
        (joinSemiSpace (((pairs.map Prod.snd).dedup).map cell_filter_line)) :=
      joinSemiSpace_contains _ _
        (List.mem_map_of_mem _ (List.mem_dedup.mpr (List.mem_map_of_mem _ hp)))
    refine containsStr_append_right _ _ _ ?_
    refine containsStr_append_right _ _ _ ?_
    refine containsStr_append_right _ _ _ ?_
    refine containsStr_append_right _ _ _ ?_
    refine containsStr_append_left _ _ _ ?_
    exact containsStr_trans h1 h2
  · exact containsStr_of_append "amos " enb_id _

/-- Witness for the amended C2 at a concrete target list. -/
theorem command_contains_enb_and_cells_witness :
    containsStr "123456"
      (construct_amos_command_sc_fdd "123456" "u" [("7A", "123456_1")] "s") ∧
    containsStr "123456_1"
      (construct_amos_command_sc_fdd "123456" "u" [("7A", "123456_1")] "s") := by
  have h := command_contains_enb_and_cells "123456" "u" "s" [("7A", "123456_1")]
  exact ⟨h.1, h.2.1 ("7A", "123456_1") (List.mem_singleton.mpr rfl)⟩

set_option maxRecDepth 16384 in
/-- C2 counterexample: the command built for the single target pair
`("Z", "123456_1")` does not contain the supplied sector-carrier filter
`Z` at all, so the command does not embed the sector-carrier filter
verbatim. -/
theorem sc_filter_not_in_command :
    ¬ containsStr "Z"
      (construct_amos_command_sc_fdd "123456" "u" [("Z", "123456_1")] "s") := by
  intro h
  have hmem : ('Z' : Char) ∈
      (construct_amos_command_sc_fdd "123456" "u" [("Z", "123456_1")] "s").data := by
    obtain ⟨x, y, hxy⟩ := h
    rw [← hxy]
    simp
  revert hmem
  decide

end SpecAn
